import Mathlib

/-!
Verification development for the DVRE AL-Engine iteration script
(`al-engine/src/al_iteration.py`).

The embedding models the per-invocation behaviour of `main` and its helper
functions.  Feature values are modelled as integers (`Row := List Int`): the
engine only ever moves feature values around and compares them for exact
equality, and Python's float repr/parse round-trip used by `pandas.to_csv` /
`read_csv` is exact, so persistence of a row is the identity on its values.
Labels are strings (`str(final_label)` is applied before storage).  The
filesystem state consumed by one invocation (the persisted labeled dataset,
the prior rounds' `voting_results_round_r.json` and
`query_samples_round_r.json` files) is passed explicitly; position `k` of a
file list holds round `k+1`'s file, `none` meaning the file does not exist.
-/

namespace DVRE

/-- A feature vector: one row of the unlabeled CSV. -/
abbrev Row := List Int

/-- One entry of a `voting_results_round_r.json` file.  Either field may be
absent/null (`sample_vote.get(...)` returning `None`).  `original_index` is an
arbitrary JSON integer, hence `Int`. -/
structure VotingEntry where
  original_index : Option Int
  final_label : Option String
deriving Repr, DecidableEq

/-- One row of the persisted labeled dataset `labeled_samples.csv`:
feature values plus the `label` column. -/
structure LabeledRow where
  features : Row
  label : String
deriving Repr, DecidableEq

/-- The filesystem state the Label Accumulator reads and writes:
the original unlabeled CSV, the persisted labeled dataset, and the
voting-result files (`votingFiles[k]` is `voting_results_round_{k+1}.json`). -/
structure AccumState where
  unlabeled : List Row
  labeled : List LabeledRow
  votingFiles : List (Option (List VotingEntry))
deriving Repr, DecidableEq

/-- `pandas.DataFrame.iloc[i]` row selection at an integer position, Python
semantics: a negative `i` counts from the end; a position outside
`[-len, len)` raises `IndexError`. -/
def pyIloc (rows : List Row) (i : Int) : Except String Row :=
  let j : Int := if 0 ≤ i then i else (rows.length : Int) + i
  if 0 ≤ j then
    match rows.get? j.toNat with
    | some r => .ok r
    | none => .error "IndexError"
  else .error "IndexError"

/-- Lines 172–188 of `al_iteration.py`: processing of one voting entry.
An entry with a null `original_index` or `final_label` is skipped (warning);
an entry whose index fails the `original_index < len(unlabeled_df)` test is
skipped (warning); otherwise the row is fetched with `iloc` — which can raise
for an index below `-len` — and becomes a candidate labeled row carrying
`str(final_label)`. -/
def candidateOf (unlabeled : List Row) (e : VotingEntry) :
    Except String (Option LabeledRow) :=
  match e.original_index, e.final_label with
  | some i, some l =>
      if i < (unlabeled.length : Int) then
        match pyIloc unlabeled i with
        | .ok r => .ok (some { features := r, label := l })
        | .error msg => .error msg
      else .ok none
  | _, _ => .ok none

/-- The voting file for round `k+1`, or `[]` when it does not exist
(the code logs and moves on). -/
def fileAt (files : List (Option (List VotingEntry))) (k : Nat) :
    List VotingEntry :=
  match files.get? k with
  | some (some es) => es
  | _ => []

/-- All voting entries the accumulator iterates over for iteration `it`:
the entries of every existing `voting_results_round_r.json`, rounds
`r = 1 .. it-1` in order. -/
def allVotingEntries (files : List (Option (List VotingEntry))) (it : Nat) :
    List VotingEntry :=
  (List.range (it - 1)).foldr (fun k acc => fileAt files k ++ acc) []

/-- The `newly_labeled_samples` collection loop (lines 161–190): candidates
in entry order; a pandas `IndexError` aborts the whole collection. -/
def candidatesOfEntries (unlabeled : List Row) :
    List VotingEntry → Except String (List LabeledRow)
  | [] => .ok []
  | e :: es =>
      match candidateOf unlabeled e with
      | .error msg => .error msg
      | .ok none => candidatesOfEntries unlabeled es
      | .ok (some c) =>
          match candidatesOfEntries unlabeled es with
          | .error msg => .error msg
          | .ok cs => .ok (c :: cs)

/-- Lines 209–219: a candidate is a duplicate when its feature values exactly
equal the feature values of some row of the persisted labeled dataset. -/
def isDuplicate (existing : List LabeledRow) (c : LabeledRow) : Bool :=
  existing.any (fun e0 => e0.features == c.features)

/-- Lines 205–222: keep the candidates that are not duplicates of rows already
in the persisted labeled dataset (candidates are not deduplicated against each
other). -/
def trulyNew (existing : List LabeledRow) (cands : List LabeledRow) :
    List LabeledRow :=
  cands.filter (fun c => !(isDuplicate existing c))

/-- Lines 192–244: given the collected candidates, the returned count and the
persisted labeled dataset after the run (written only when at least one truly
new sample exists; otherwise unchanged). -/
def applyCandidates (labeled : List LabeledRow) (cands : List LabeledRow) :
    Nat × List LabeledRow :=
  if cands.isEmpty then (0, labeled)
  else
    let tn := trulyNew labeled cands
    if tn.isEmpty then (0, labeled)
    else (tn.length, labeled ++ tn)

/-- `accumulate_newly_labeled_samples` (lines 128–249): result is
`(returned count, persisted labeled dataset afterwards)`.  The whole body is
wrapped in `try/except`; any exception (modelled: the pandas `IndexError`
raised by an `original_index` below `-len`) is caught and the function
returns `0` with the dataset untouched. -/
def accumulate_newly_labeled_samples (s : AccumState) (it : Nat) :
    Nat × List LabeledRow :=
  match candidatesOfEntries s.unlabeled (allVotingEntries s.votingFiles it) with
  | .ok cands => applyCandidates s.labeled cands
  | .error _ => (0, s.labeled)

/-- One entry of a persisted `query_samples_round_r.json` file.  The engine
always writes an `original_index`, but the reader (lines 348–350) tolerates
entries without one, hence `Option`. -/
structure QueryEntry where
  features : Row
  original_index : Option Nat
deriving Repr, DecidableEq

/-- The command-line arguments / config fields of `main` that the modelled
behaviour depends on.  `projectId = none` models an absent (or empty, hence
falsy) `--project_id`. -/
structure Args where
  iteration : Nat
  projectId : Option String
  finalTraining : Bool
  queryBatchSize : Nat
deriving Repr, DecidableEq

/-- The filesystem state one invocation of `main` reads:
the unlabeled CSV, the persisted labeled dataset, and the prior rounds'
voting-result and query-batch files (`queryFiles[k]` is
`query_samples_round_{k+1}.json`). -/
structure EngineState where
  unlabeledRows : List Row
  labeled : List LabeledRow
  votingFiles : List (Option (List VotingEntry))
  queryFiles : List (Option (List QueryEntry))
deriving Repr, DecidableEq

/-- The guard `args.iteration > 1 and args.project_id and not
args.final_training` used at lines 306 and 324 for both the Accumulator and
the pool filter. -/
def reconGuard (args : Args) : Bool :=
  decide (1 < args.iteration) && args.projectId.isSome && !args.finalTraining

/-- The query file for round `k+1`, or `[]` when it does not exist. -/
def qfileAt (files : List (Option (List QueryEntry))) (k : Nat) :
    List QueryEntry :=
  match files.get? k with
  | some (some es) => es
  | _ => []

/-- Lines 343–350: `queried_indices`, the union of the `original_index`
values of every entry of every existing `query_samples_round_r.json`,
`r = 1 .. it-1` (entries without the key contribute nothing).  Membership is
all that is ever asked of it, so a list models the Python set. -/
def queriedIndicesUpTo (files : List (Option (List QueryEntry))) (it : Nat) :
    List Nat :=
  (List.range (it - 1)).foldr
    (fun k acc => (qfileAt files k).filterMap (fun e => e.original_index) ++ acc)
    []

/-- Lines 352–366: the filtered working pool and the
position → original-index mapping.  When no previously queried index was
found the pool is untouched and the mapping is the identity
`{i: i for i in range(len(X_unlabeled))}`; otherwise the pool is sliced by
`available_indices` and the mapping is `new_idx ↦ available_indices[new_idx]`
(modelled by the `available` list itself). -/
def reconcilePool (files : List (Option (List QueryEntry))) (it : Nat)
    (pool : List Row) : List Row × List Nat :=
  let queried := queriedIndicesUpTo files it
  if queried.isEmpty then (pool, List.range pool.length)
  else
    let available := (List.range pool.length).filter
      (fun i => !(queried.contains i))
    (available.filterMap (fun i => pool.get? i), available)

/-- Lines 323–374: the working pool and mapping `main` ends up with — the
reconciler runs only under `reconGuard`; round 1, a missing project id or a
final-training round keep the full pool with the identity mapping. -/
def poolAndMapping (args : Args) (s : EngineState) : List Row × List Nat :=
  if reconGuard args then reconcilePool s.queryFiles args.iteration s.unlabeledRows
  else (s.unlabeledRows, List.range s.unlabeledRows.length)

/-- The message with which scikit-learn's input validation rejects an empty
matrix. -/
def emptyPoolError : String :=
  "ValueError: Found array with 0 sample(s) while a minimum of 1 is required"

/-- The `learner.query(X_unlabeled, n_instances=...)` call at line 420.
The query strategy itself is external (modAL); it is modelled as an abstract
`selector` returning positions into the working pool.  Modelled from the
library's behaviour on the degenerate input: modAL's uncertainty sampling
calls the estimator's `predict_proba`, whose scikit-learn input validation
(`check_array`, `ensure_min_samples=1`) raises `ValueError` on an empty
matrix, so the call raises rather than returning an empty batch. -/
def learnerQuery (selector : List Row → Nat → List Nat) (pool : List Row)
    (n : Nat) : Except String (List Nat) :=
  if pool.isEmpty then .error emptyPoolError else .ok (selector pool n)

/-- The `final_training` flag embedded in `performance_round_N.json`
(line 458). -/
structure PerfRecord where
  final_training : Bool
deriving Repr, DecidableEq

/-- What one successful invocation of `main` leaves behind: the accumulator's
return value, the labeled dataset it persisted, and the three possible output
files of the round (`none` / `false` meaning the file was not written). -/
structure RoundOutputs where
  newlyAdded : Nat
  labeledAfter : List LabeledRow
  queryFile : Option (List QueryEntry)
  performanceFile : Option PerfRecord
  modelWritten : Bool
deriving Repr, DecidableEq

/-- Lines 305–311: the accumulator call, run only under `reconGuard`;
its result pairs the returned count with the persisted labeled dataset. -/
def accStep (args : Args) (s : EngineState) : Nat × List LabeledRow :=
  if reconGuard args then
    accumulate_newly_labeled_samples
      ⟨s.unlabeledRows, s.labeled, s.votingFiles⟩ args.iteration
  else (0, s.labeled)

/-- Lines 426–446: the entries persisted to `query_samples_round_N.json` —
one per position the Query Selector returned, carrying the working-pool row
and the mapped original index. -/
def queryFileEntries (selector : List Row → Nat → List Nat) (args : Args)
    (s : EngineState) : List QueryEntry :=
  (selector (poolAndMapping args s).1 args.queryBatchSize).map (fun p =>
    { features := ((poolAndMapping args s).1.get? p).getD [],
      original_index := (poolAndMapping args s).2.get? p })

/-- `main` (lines 251–525), with training/evaluation kept abstract (they touch
no state the claims mention beyond the performance flag): accumulate under
`reconGuard`, filter the pool, then — unless `final_training` — query and
persist the query batch with mapped original indices (lines 418–452), and
persist the performance metrics and the model (lines 456–471).  An uncaught
exception from the query step yields `.error`: the process dies before the
performance and model files are written. -/
def runMain (selector : List Row → Nat → List Nat) (args : Args)
    (s : EngineState) : Except String RoundOutputs :=
  let acc := accStep args s
  let pm := poolAndMapping args s
  if args.finalTraining then
    .ok { newlyAdded := acc.1, labeledAfter := acc.2, queryFile := none,
          performanceFile := some ⟨true⟩, modelWritten := true }
  else
    match learnerQuery selector pm.1 args.queryBatchSize with
    | .error e => .error e
    | .ok positions =>
        .ok { newlyAdded := acc.1, labeledAfter := acc.2,
              queryFile := some (positions.map (fun p =>
                { features := (pm.1.get? p).getD [],
                  original_index := pm.2.get? p })),
              performanceFile := some ⟨false⟩, modelWritten := true }

/-- `len(np.unique(y_test))`: the number of distinct labels of the test
set. -/
def uniqueCount (ys : List Int) : Nat := ys.eraseDups.length

/-- Line 75 of `evaluate_model_performance`:
`'weighted' if len(np.unique(y_test)) > 2 else 'binary'`. -/
def averageStrategy (ys : List Int) : String :=
  if 2 < uniqueCount ys then "weighted" else "binary"

/-- The ordered steps one invocation of `main` executes, for the temporal
claims: accumulate (line 306, guarded), load the datasets (line 318),
reconcile the pool (line 324, guarded), train (line 393), evaluate
(line 415), query and persist the batch (lines 418–452, skipped on final
training), persist performance (line 460) and the model (line 469). -/
inductive Step where
  | accumulate | loadData | reconcile | train | evaluate
  | query | persistQuery | persistPerformance | persistModel
deriving Repr, DecidableEq

/-- The sequence of steps `main` executes for given arguments. -/
def mainSteps (args : Args) : List Step :=
  (if reconGuard args then [Step.accumulate] else [])
    ++ [Step.loadData]
    ++ (if reconGuard args then [Step.reconcile] else [])
    ++ [Step.train, Step.evaluate]
    ++ (if args.finalTraining then [] else [Step.query, Step.persistQuery])
    ++ [Step.persistPerformance, Step.persistModel]

/-- Position of the first occurrence of a step in a step list (list length
when absent). -/
def stepIdx : List Step → Step → Nat
  | [], _ => 0
  | x :: xs, a => if x = a then 0 else stepIdx xs a + 1

/-- `a` runs strictly before `b` in the step list `l`. -/
def stepBefore (l : List Step) (a b : Step) : Prop :=
  a ∈ l ∧ b ∈ l ∧ stepIdx l a < stepIdx l b

instance (l : List Step) (a b : Step) : Decidable (stepBefore l a b) := by
  unfold stepBefore; infer_instance

/-! ### Spec-side formulas

Definitions below named `spec…` / `amended…` follow the wording of the
specification sentence (or of the amended claim) rather than the code's
branch structure; the theorems compare them with the code-side
definitions above. -/

/-- Spec-side formula for claim C1: the surviving original indices — all
original positions not in the union of previously queried indices, in
original order. -/
def specSurvivors (s : EngineState) (it : Nat) : List Nat :=
  (List.range s.unlabeledRows.length).filter
    (fun i => !((queriedIndicesUpTo s.queryFiles it).contains i))

/-- Spec-side formula for claim C1: the original unlabeled matrix restricted
to the surviving original indices. -/
def specWorkingPool (s : EngineState) (it : Nat) : List Row :=
  (specSurvivors s it).filterMap (fun i => s.unlabeledRows.get? i)

/-- The candidate row the amended claim C3 predicts for one voting entry:
present exactly when `original_index` `i` and `final_label` are non-null and
`i` is in `[-len, len)`, with `0 ≤ i < len` taking row `i` and
`-len ≤ i < 0` taking the row at `len + i`, counted from the end. -/
def amendedCandidate (unlabeled : List Row) (e : VotingEntry) :
    Option LabeledRow :=
  match e.original_index, e.final_label with
  | some i, some l =>
      if 0 ≤ i ∧ i < (unlabeled.length : Int) then
        (unlabeled.get? i.toNat).map (fun r => { features := r, label := l })
      else if -(unlabeled.length : Int) ≤ i ∧ i < 0 then
        (unlabeled.get? ((unlabeled.length : Int) + i).toNat).map
          (fun r => { features := r, label := l })
      else none
  | _, _ => none

/-- The candidate rows the amended claim C3 predicts for a list of voting
entries, in order. -/
def amendedCandidates (unlabeled : List Row) (es : List VotingEntry) :
    List LabeledRow :=
  es.filterMap (amendedCandidate unlabeled)

/-- A voting entry that makes the accumulation loop raise: both fields
present and `original_index` below `-len`, so the `original_index < len`
test passes but `iloc` raises `IndexError`. -/
def entryAborts (unlabeled : List Row) (e : VotingEntry) : Bool :=
  match e.original_index, e.final_label with
  | some i, some _ => decide (i < -(unlabeled.length : Int))
  | _, _ => false

/-! ### Helper lemmas -/

theorem get?_some_of_lt {α : Type} :
    ∀ (l : List α) (n : Nat), n < l.length → ∃ a, l.get? n = some a
  | a :: _, 0, _ => ⟨a, rfl⟩
  | _ :: l, n + 1, h => get?_some_of_lt l n (Nat.lt_of_succ_lt_succ h)

theorem mem_of_get?_eq_some {α : Type} :
    ∀ {l : List α} {n : Nat} {a : α}, l.get? n = some a → a ∈ l
  | x :: _, 0, a, h => by
      simp only [List.get?] at h
      exact (Option.some.inj h) ▸ List.mem_cons_self x _
  | _ :: l, n + 1, a, h => List.mem_cons_of_mem _ (mem_of_get?_eq_some h)

theorem filter_of_all_true {α : Type} (p : α → Bool) :
    ∀ (l : List α), (∀ a ∈ l, p a = true) → l.filter p = l
  | [], _ => rfl
  | x :: xs, h => by
      have hx : p x = true := h x (List.mem_cons_self x xs)
      simp only [List.filter, hx]
      exact congrArg (x :: ·) (filter_of_all_true p xs
        (fun a ha => h a (List.mem_cons_of_mem x ha)))

theorem filterMap_get?_range {α : Type} (l : List α) :
    (List.range l.length).filterMap (fun i => l.get? i) = l := by
  induction l with
  | nil => rfl
  | cons a l ih =>
      have hr : List.range (l.length + 1)
          = 0 :: (List.range l.length).map Nat.succ := List.range_succ_eq_map _
      simp only [List.length_cons, hr, List.filterMap_cons, List.get?,
        List.filterMap_map]
      exact congrArg (a :: ·) ih

/-- Membership in the fold that builds `queriedIndicesUpTo`, from membership
in one of the folded files. -/
theorem mem_foldr_of_mem_file {m : Nat}
    (files : List (Option (List QueryEntry))) :
    ∀ (ks : List Nat) (k : Nat), k ∈ ks →
      m ∈ (qfileAt files k).filterMap (fun e => e.original_index) →
      m ∈ ks.foldr
        (fun k acc =>
          (qfileAt files k).filterMap (fun e => e.original_index) ++ acc) []
  | [], _, hk, _ => absurd hk (List.not_mem_nil _)
  | k0 :: ks, k, hk, hm => by
      rcases List.mem_cons.1 hk with h | h
      · exact List.mem_append_left _ (h ▸ hm)
      · exact List.mem_append_right _ (mem_foldr_of_mem_file files ks k h hm)

/-- Any `original_index` of an existing prior-round query file is in the
union of previously queried indices. -/
theorem mem_queriedIndicesUpTo {m : Nat}
    (files : List (Option (List QueryEntry))) (it k : Nat)
    (hk : k < it - 1) (es : List QueryEntry)
    (hfile : files.get? k = some (some es))
    (hm : m ∈ es.filterMap (fun e => e.original_index)) :
    m ∈ queriedIndicesUpTo files it := by
  have hq : qfileAt files k = es := by
    simp only [qfileAt, hfile]
  exact mem_foldr_of_mem_file files (List.range (it - 1)) k
    (List.mem_range.2 hk) (hq ▸ hm)

/-! ### Accumulator lemmas -/

theorem applyCandidates_eq (L cs : List LabeledRow) :
    applyCandidates L cs = ((trulyNew L cs).length, L ++ trulyNew L cs) := by
  unfold applyCandidates
  cases cs with
  | nil => simp [trulyNew]
  | cons c cs' =>
      cases htn : trulyNew L (c :: cs') with
      | nil => simp [htn]
      | cons t ts => simp [htn]

theorem candidateOf_of_not_aborts (unlabeled : List Row) (e : VotingEntry)
    (h : entryAborts unlabeled e = false) :
    candidateOf unlabeled e = .ok (amendedCandidate unlabeled e) := by
  rcases e with ⟨oi, ol⟩
  cases oi with
  | none => cases ol <;> rfl
  | some i =>
      cases ol with
      | none => rfl
      | some l =>
          have hge : -(unlabeled.length : Int) ≤ i := by
            simpa [entryAborts, not_lt] using h
          by_cases hi : i < (unlabeled.length : Int)
          · by_cases hpos : 0 ≤ i
            · obtain ⟨r, hr⟩ :=
                get?_some_of_lt unlabeled i.toNat (by omega)
              simp [candidateOf, pyIloc, amendedCandidate, hi, hpos, hr]
            · have hlt0 : i < 0 := by omega
              have h0 : (0:Int) ≤ (unlabeled.length : Int) + i := by omega
              obtain ⟨r, hr⟩ := get?_some_of_lt unlabeled
                ((unlabeled.length : Int) + i).toNat (by omega)
              simp [candidateOf, pyIloc, amendedCandidate, hi, hpos, h0,
                hge, hlt0, hr]
          · have hnneg : ¬ i < 0 := by omega
            simp [candidateOf, amendedCandidate, hi, hnneg]

theorem candidateOf_of_aborts (unlabeled : List Row) (e : VotingEntry)
    (h : entryAborts unlabeled e = true) :
    candidateOf unlabeled e = .error "IndexError" := by
  rcases e with ⟨oi, ol⟩
  cases oi with
  | none => simp [entryAborts] at h
  | some i =>
      cases ol with
      | none => simp [entryAborts] at h
      | some l =>
          have hlt : i < -(unlabeled.length : Int) := by
            simpa [entryAborts] using h
          have hi : i < (unlabeled.length : Int) := by omega
          have hpos : ¬ 0 ≤ i := by omega
          have hj : ¬ (0:Int) ≤ (unlabeled.length : Int) + i := by omega
          simp [candidateOf, pyIloc, hi, hpos, hj]

theorem candidatesOfEntries_of_no_abort (unlabeled : List Row) :
    ∀ (es : List VotingEntry),
      (∀ e ∈ es, entryAborts unlabeled e = false) →
      candidatesOfEntries unlabeled es = .ok (amendedCandidates unlabeled es)
  | [], _ => rfl
  | e :: es, h => by
      have he := candidateOf_of_not_aborts unlabeled e
        (h e (List.mem_cons_self _ _))
      have ih := candidatesOfEntries_of_no_abort unlabeled es
        (fun a ha => h a (List.mem_cons_of_mem _ ha))
      cases hc : amendedCandidate unlabeled e with
      | none =>
          rw [hc] at he
          simp [candidatesOfEntries, he, ih, amendedCandidates,
            List.filterMap_cons, hc]
      | some c =>
          rw [hc] at he
          simp [candidatesOfEntries, he, ih, amendedCandidates,
            List.filterMap_cons, hc]

theorem candidatesOfEntries_error_of_abort (unlabeled : List Row) :
    ∀ (es : List VotingEntry),
      (∃ e ∈ es, entryAborts unlabeled e = true) →
      ∃ msg, candidatesOfEntries unlabeled es = .error msg
  | [], h => absurd h (by simp)
  | e :: es, h => by
      cases ha : entryAborts unlabeled e with
      | true =>
          have he := candidateOf_of_aborts unlabeled e ha
          exact ⟨"IndexError", by simp [candidatesOfEntries, he]⟩
      | false =>
          have he := candidateOf_of_not_aborts unlabeled e ha
          have htail : ∃ a ∈ es, entryAborts unlabeled a = true := by
            rcases h with ⟨a, hmem, habort⟩
            rcases List.mem_cons.1 hmem with rfl | hmem'
            · exact absurd habort (by simp [ha])
            · exact ⟨a, hmem', habort⟩
          obtain ⟨msg, hmsg⟩ :=
            candidatesOfEntries_error_of_abort unlabeled es htail
          cases hc : amendedCandidate unlabeled e with
          | none =>
              rw [hc] at he
              exact ⟨msg, by simp [candidatesOfEntries, he, hmsg]⟩
          | some c =>
              rw [hc] at he
              exact ⟨msg, by simp [candidatesOfEntries, he, hmsg]⟩

theorem isDuplicate_append (A B : List LabeledRow) (c : LabeledRow) :
    isDuplicate (A ++ B) c = (isDuplicate A c || isDuplicate B c) := by
  simp [isDuplicate, List.any_append]

theorem isDuplicate_of_mem {L : List LabeledRow} {c : LabeledRow}
    (h : c ∈ L) : isDuplicate L c = true := by
  simp only [isDuplicate, List.any_eq_true]
  exact ⟨c, h, by simp⟩

theorem trulyNew_after_append (L cs : List LabeledRow) :
    trulyNew (L ++ trulyNew L cs) cs = [] := by
  generalize htn : trulyNew L cs = tn
  unfold trulyNew
  rw [List.filter_eq_nil_iff]
  intro c hc
  simp only [Bool.not_eq_true', Bool.not_eq_false]
  cases hd : isDuplicate L c with
  | true => rw [isDuplicate_append, hd]; rfl
  | false =>
      have hmem0 : c ∈ trulyNew L cs := by
        unfold trulyNew
        exact List.mem_filter.2 ⟨hc, by simp [hd]⟩
      have hmem : c ∈ tn := htn ▸ hmem0
      rw [isDuplicate_append, isDuplicate_of_mem hmem, Bool.or_true]

theorem not_mem_of_contains_eq_false {l : List Nat} {a : Nat}
    (h : l.contains a = false) : a ∉ l := fun hmem =>
  Bool.noConfusion ((List.elem_iff.2 hmem).symm.trans h)

/-- Under the reconciler guard, the pool/mapping pair the code computes,
as a function of the collected queried-index union. -/
theorem poolAndMapping_guard (args : Args) (s : EngineState)
    (hg : reconGuard args = true) :
    poolAndMapping args s
      = reconcilePool s.queryFiles args.iteration s.unlabeledRows := by
  simp [poolAndMapping, hg]

/-! ### Claim theorems -/

/-- C1: with round number above 1 (and a project id, outside final training),
the working pool passed to the Query Selector is the original unlabeled
matrix restricted to exactly the original indices not occurring in any prior
round's query batch, in original order, and the mapping sends working
position `p` to the `p`-th surviving index; for round 1 (`reconGuard` false
also covers a missing project id and final training) or when no prior query
batch contributed an index, pool and mapping are the identity. -/
theorem pool_filter_correct (args : Args) (s : EngineState) :
    (reconGuard args = true →
      poolAndMapping args s
        = (specWorkingPool s args.iteration, specSurvivors s args.iteration))
  ∧ (queriedIndicesUpTo s.queryFiles args.iteration = []
        ∨ reconGuard args = false →
      poolAndMapping args s
        = (s.unlabeledRows, List.range s.unlabeledRows.length)) := by
  have hspec_empty : queriedIndicesUpTo s.queryFiles args.iteration = [] →
      specWorkingPool s args.iteration = s.unlabeledRows
      ∧ specSurvivors s args.iteration
          = List.range s.unlabeledRows.length := by
    intro hq
    have hs : specSurvivors s args.iteration
        = List.range s.unlabeledRows.length := by
      unfold specSurvivors
      rw [hq]
      exact filter_of_all_true _ _ (fun a _ => rfl)
    refine ⟨?_, hs⟩
    unfold specWorkingPool
    rw [hs]
    exact filterMap_get?_range s.unlabeledRows
  constructor
  · intro hg
    rw [poolAndMapping_guard args s hg]
    unfold reconcilePool
    cases hq : queriedIndicesUpTo s.queryFiles args.iteration with
    | nil =>
        obtain ⟨h1, h2⟩ := hspec_empty hq
        simp [h1, h2]
    | cons q qs =>
        simp only [List.isEmpty_cons, Bool.false_eq_true, if_false]
        unfold specWorkingPool specSurvivors
        rw [hq]
  · intro h
    rcases h with hq | hg
    · cases hg : reconGuard args with
      | true =>
          rw [poolAndMapping_guard args s hg]
          unfold reconcilePool
          rw [hq]
          rfl
      | false => simp [poolAndMapping, hg]
    · simp [poolAndMapping, hg]

/-- C1 witness input: round 2 after a round-1 query batch that took original
index 1 from a 3-row pool. -/
def c1State : EngineState :=
  { unlabeledRows := [[1], [2], [3]], labeled := [], votingFiles := [],
    queryFiles := [some [⟨[2], some 1⟩]] }

theorem pool_filter_correct_witness :
    poolAndMapping ⟨2, some "p", false, 1⟩ c1State
      = (specWorkingPool c1State 2, specSurvivors c1State 2)
    ∧ poolAndMapping ⟨1, some "p", false, 1⟩ c1State
      = (c1State.unlabeledRows, List.range c1State.unlabeledRows.length) :=
  ⟨(pool_filter_correct ⟨2, some "p", false, 1⟩ c1State).1 (by decide),
   (pool_filter_correct ⟨1, some "p", false, 1⟩ c1State).2 (Or.inr (by decide))⟩

/-- C2: every `original_index` persisted in round `N`'s query batch is the
image under the position-to-original-index mapping of a working-pool
position returned by the Query Selector, and for `N > 1` the persisted set
is disjoint from the indices of every existing prior round's query batch. -/
theorem query_indices_original_space (selector : List Row → Nat → List Nat)
    (args : Args) (s : EngineState)
    (hg : reconGuard args = true)
    (hne : (poolAndMapping args s).1 ≠ []) :
    ∃ o, runMain selector args s = .ok o ∧
      ∃ qf, o.queryFile = some qf ∧
        (∀ e ∈ qf,
          ∃ p ∈ selector (poolAndMapping args s).1 args.queryBatchSize,
            e.original_index = (poolAndMapping args s).2.get? p) ∧
        (∀ k, k < args.iteration - 1 →
          ∀ es, s.queryFiles.get? k = some (some es) →
            ∀ n ∈ qf.filterMap (fun e => e.original_index),
              n ∉ es.filterMap (fun e => e.original_index)) := by
  have hft : args.finalTraining = false := by
    unfold reconGuard at hg
    simp only [Bool.and_eq_true, Bool.not_eq_true'] at hg
    exact hg.2
  have hemp : (poolAndMapping args s).1.isEmpty = false := by
    cases hp : (poolAndMapping args s).1 with
    | nil => exact absurd hp hne
    | cons a as => rfl
  have hrun : runMain selector args s = .ok
      { newlyAdded := (accStep args s).1,
        labeledAfter := (accStep args s).2,
        queryFile := some (queryFileEntries selector args s),
        performanceFile := some ⟨false⟩, modelWritten := true } := by
    unfold runMain queryFileEntries
    rw [hft]
    simp [learnerQuery, hemp]
  refine ⟨_, hrun, queryFileEntries selector args s, rfl, ?_, ?_⟩
  · intro e he
    unfold queryFileEntries at he
    rcases List.mem_map.1 he with ⟨p, hp, rfl⟩
    exact ⟨p, hp, rfl⟩
  · intro k hk es hes n hn
    rcases List.mem_filterMap.1 hn with ⟨e, he, hidx⟩
    unfold queryFileEntries at he
    rcases List.mem_map.1 he with ⟨p, _, rfl⟩
    have hmap : (poolAndMapping args s).2.get? p = some n := hidx
    have hmem : n ∈ (poolAndMapping args s).2 := mem_of_get?_eq_some hmap
    intro hnes
    have hnq : n ∈ queriedIndicesUpTo s.queryFiles args.iteration :=
      mem_queriedIndicesUpTo s.queryFiles args.iteration k hk es hes hnes
    rw [poolAndMapping_guard args s hg] at hmem
    unfold reconcilePool at hmem
    cases hq : queriedIndicesUpTo s.queryFiles args.iteration with
    | nil => rw [hq] at hnq; exact List.not_mem_nil n hnq
    | cons q qs =>
        rw [hq] at hmem
        simp only [List.isEmpty_cons, Bool.false_eq_true, if_false] at hmem
        have hfilt := (List.mem_filter.1 hmem).2
        simp only [Bool.not_eq_true'] at hfilt
        exact not_mem_of_contains_eq_false hfilt (hq ▸ hnq)

/-- C2 witness input: round 2 after a round-1 query batch that took original
index 0; a constant selector picks working position 0. -/
def c2State : EngineState :=
  { unlabeledRows := [[1], [2], [3]], labeled := [], votingFiles := [],
    queryFiles := [some [⟨[1], some 0⟩]] }

def c2Selector : List Row → Nat → List Nat := fun _ _ => [0]

theorem query_indices_original_space_witness :
    ∃ o, runMain c2Selector ⟨2, some "p", false, 1⟩ c2State = .ok o ∧
      ∃ qf, o.queryFile = some qf ∧
        (∀ e ∈ qf,
          ∃ p ∈ c2Selector (poolAndMapping ⟨2, some "p", false, 1⟩ c2State).1 1,
            e.original_index
              = (poolAndMapping ⟨2, some "p", false, 1⟩ c2State).2.get? p) ∧
        (∀ k, k < (2:Nat) - 1 →
          ∀ es, c2State.queryFiles.get? k = some (some es) →
            ∀ n ∈ qf.filterMap (fun e => e.original_index),
              n ∉ es.filterMap (fun e => e.original_index)) :=
  query_indices_original_space c2Selector ⟨2, some "p", false, 1⟩ c2State
    (by decide) (by decide)

/-- C3 counterexample input: round 2 with one prior voting file holding a
perfectly good entry (index 0, label "a", not a duplicate of anything) and a
second entry whose `original_index` is below `-len`. -/
def c3State : AccumState :=
  { unlabeled := [[10], [20]], labeled := [],
    votingFiles := [some [⟨some 0, some "a"⟩, ⟨some (-5), some "b"⟩]] }

/-- C3 counterexample: the first voting entry is non-null, within the bounds
of the 2-row unlabeled dataset and not a feature duplicate, so the claim
predicts exactly one appended row; the code instead appends nothing — the
second entry's index `-5` passes the `original_index < len` test, the row
lookup raises, and the caught exception makes the whole accumulation return
`(0, unchanged)`. -/
theorem accumulate_claim_counterexample :
    accumulate_newly_labeled_samples c3State 2 = (0, [])
    ∧ allVotingEntries c3State.votingFiles 2
        = [⟨some 0, some "a"⟩, ⟨some (-5), some "b"⟩]
    ∧ (0:Int) < (c3State.unlabeled.length : Int)
    ∧ isDuplicate c3State.labeled ⟨[10], "a"⟩ = false := by decide

/-- C3 (amended): when no voting entry has an index below `-len`, the
persisted labeled dataset after accumulation is the pre-accumulation dataset
plus exactly one row per voting entry with non-null `original_index` and
`final_label` whose index lies in `[-len, len)` (the code checks only
`index < len`; a negative index selects the row counted from the end) and
whose feature values duplicate no pre-existing row, each row carrying the
unlabeled row's features plus the stringified label, and the returned count
is the number of appended rows; when some entry's index is below `-len` the
lookup raises and accumulation returns 0 with the dataset unchanged. -/
theorem accumulate_characterization (s : AccumState) (it : Nat) :
    ((∀ e ∈ allVotingEntries s.votingFiles it,
        entryAborts s.unlabeled e = false) →
      accumulate_newly_labeled_samples s it =
        ((trulyNew s.labeled
            (amendedCandidates s.unlabeled
              (allVotingEntries s.votingFiles it))).length,
         s.labeled ++ trulyNew s.labeled
            (amendedCandidates s.unlabeled
              (allVotingEntries s.votingFiles it))))
  ∧ ((∃ e ∈ allVotingEntries s.votingFiles it,
        entryAborts s.unlabeled e = true) →
      accumulate_newly_labeled_samples s it = (0, s.labeled)) := by
  constructor
  · intro h
    unfold accumulate_newly_labeled_samples
    rw [candidatesOfEntries_of_no_abort s.unlabeled _ h]
    show applyCandidates s.labeled
        (amendedCandidates s.unlabeled (allVotingEntries s.votingFiles it)) = _
    rw [applyCandidates_eq]
  · intro h
    obtain ⟨msg, hmsg⟩ :=
      candidatesOfEntries_error_of_abort s.unlabeled _ h
    unfold accumulate_newly_labeled_samples
    rw [hmsg]

/-- C3 witness input: round 3, one voting file with an in-range entry, a
duplicate entry and a null-label entry. -/
def c3WitnessState : AccumState :=
  { unlabeled := [[1], [2], [3]], labeled := [⟨[2], "b"⟩],
    votingFiles := [some [⟨some 0, some "a"⟩, ⟨some 1, some "b"⟩,
      ⟨some 2, none⟩], none] }

theorem accumulate_characterization_witness :
    accumulate_newly_labeled_samples c3WitnessState 3 =
      ((trulyNew c3WitnessState.labeled
          (amendedCandidates c3WitnessState.unlabeled
            (allVotingEntries c3WitnessState.votingFiles 3))).length,
       c3WitnessState.labeled ++ trulyNew c3WitnessState.labeled
          (amendedCandidates c3WitnessState.unlabeled
            (allVotingEntries c3WitnessState.votingFiles 3))) :=
  (accumulate_characterization c3WitnessState 3).1 (by decide)

/-- C4: running the Label Accumulator a second time over the same voting
files, starting from the labeled dataset the first run persisted, appends
zero rows and leaves the dataset as the first run left it — every candidate
of the second run is an exact feature-value duplicate of a row persisted by
the first run (persistence is value-faithful: the Python float repr/parse
CSV round-trip is exact). -/
theorem dedup_idempotent (s : AccumState) (it : Nat) :
    accumulate_newly_labeled_samples
        { s with labeled := (accumulate_newly_labeled_samples s it).2 } it
      = (0, (accumulate_newly_labeled_samples s it).2) := by
  unfold accumulate_newly_labeled_samples
  cases hE : candidatesOfEntries s.unlabeled
      (allVotingEntries s.votingFiles it) with
  | error msg => simp [hE]
  | ok cands =>
      simp only [hE, applyCandidates_eq]
      rw [trulyNew_after_append]
      simp

/-- C5 counterexample input: round 2, with a project id, but a
final-training invocation. -/
def c5Args : Args :=
  { iteration := 2, projectId := some "p", finalTraining := true,
    queryBatchSize := 1 }

/-- C5 counterexample: an invocation with round number 2 on which neither
the Accumulator nor the Index Reconciler runs (final training skips both),
refuting "for every invocation with round_number > 1 ... both executed". -/
theorem steps_claim_counterexample :
    1 < c5Args.iteration
    ∧ Step.accumulate ∉ mainSteps c5Args
    ∧ Step.reconcile ∉ mainSteps c5Args := by decide

/-- C5 (amended): the Accumulator and the Index Reconciler run exactly when
round_number > 1, a project id is present and final_training is false — and
when they run, both run before training; for round 1 (and for invocations
without a project id or with final_training) neither runs. -/
theorem steps_guarded (args : Args) :
    ((Step.accumulate ∈ mainSteps args) ↔ reconGuard args = true)
  ∧ ((Step.reconcile ∈ mainSteps args) ↔ reconGuard args = true)
  ∧ (reconGuard args = true →
      stepBefore (mainSteps args) Step.accumulate Step.train
      ∧ stepBefore (mainSteps args) Step.reconcile Step.train) := by
  cases hg : reconGuard args with
  | true =>
      have hft : args.finalTraining = false := by
        unfold reconGuard at hg
        simp only [Bool.and_eq_true, Bool.not_eq_true'] at hg
        exact hg.2
      have hms : mainSteps args
          = [Step.accumulate, Step.loadData, Step.reconcile, Step.train,
             Step.evaluate, Step.query, Step.persistQuery,
             Step.persistPerformance, Step.persistModel] := by
        simp [mainSteps, hg, hft]
      rw [hms]
      exact ⟨by decide, by decide, fun _ => ⟨by decide, by decide⟩⟩
  | false =>
      cases hft : args.finalTraining with
      | true =>
          have hms : mainSteps args
              = [Step.loadData, Step.train, Step.evaluate,
                 Step.persistPerformance, Step.persistModel] := by
            simp [mainSteps, hg, hft]
          rw [hms]
          exact ⟨by decide, by decide, fun h => absurd h (by decide)⟩
      | false =>
          have hms : mainSteps args
              = [Step.loadData, Step.train, Step.evaluate, Step.query,
                 Step.persistQuery, Step.persistPerformance,
                 Step.persistModel] := by
            simp [mainSteps, hg, hft]
          rw [hms]
          exact ⟨by decide, by decide, fun h => absurd h (by decide)⟩

theorem steps_guarded_witness :
    stepBefore (mainSteps ⟨2, some "p", false, 1⟩) Step.accumulate Step.train
    ∧ stepBefore (mainSteps ⟨2, some "p", false, 1⟩)
        Step.reconcile Step.train :=
  (steps_guarded ⟨2, some "p", false, 1⟩).2.2 (by decide)

/-- C6: when the eligible working pool is empty on a querying round, the
engine does not return an empty batch — the unguarded `learner.query` call
raises (scikit-learn rejects an empty matrix) and the invocation dies with
an error before writing its performance and model outputs, contradicting the
spec's "empty pool → successful empty batch" contract (the orchestrators
even poll an `empty_query_set` flag that is consequently never produced). -/
theorem empty_pool_crashes (selector : List Row → Nat → List Nat)
    (args : Args) (s : EngineState)
    (hft : args.finalTraining = false)
    (hempty : (poolAndMapping args s).1 = []) :
    runMain selector args s = .error emptyPoolError := by
  unfold runMain
  rw [hft]
  simp [learnerQuery, hempty]

/-- C6 witness input: a one-row pool whose only index was queried in
round 1. -/
def c6State : EngineState :=
  { unlabeledRows := [[7]], labeled := [], votingFiles := [],
    queryFiles := [some [⟨[7], some 0⟩]] }

def c6Selector : List Row → Nat → List Nat := fun _ _ => []

theorem empty_pool_crashes_witness :
    runMain c6Selector ⟨2, some "p", false, 1⟩ c6State
      = .error emptyPoolError :=
  empty_pool_crashes c6Selector ⟨2, some "p", false, 1⟩ c6State
    (by decide) (by decide)

/-- C7 counterexample: a single-class test set gets averaging strategy
"binary", not "weighted" — the code uses "binary" whenever there are at most
two distinct classes, refuting "binary exactly when two distinct classes,
weighted in every other case including a single class". -/
theorem averaging_claim_counterexample :
    averageStrategy [0] = "binary"
    ∧ uniqueCount [0] = 1
    ∧ "binary" ≠ "weighted" := by decide

/-- C7 (amended): the averaging strategy is "binary" exactly when the test
set contains at most two distinct classes (including a single class or an
empty test set), and "weighted" exactly when it contains more than two. -/
theorem averaging_strategy (ys : List Int) :
    (averageStrategy ys = "binary" ↔ uniqueCount ys ≤ 2)
    ∧ (averageStrategy ys = "weighted" ↔ 2 < uniqueCount ys) := by
  unfold averageStrategy
  by_cases h : 2 < uniqueCount ys
  · rw [if_pos h]
    refine ⟨⟨fun he => absurd he (by decide), fun hle => absurd h (Nat.not_lt.2 hle)⟩, ?_⟩
    exact ⟨fun _ => h, fun _ => rfl⟩
  · rw [if_neg h]
    have hle : uniqueCount ys ≤ 2 := Nat.not_lt.1 h
    refine ⟨⟨fun _ => hle, fun _ => rfl⟩, ?_⟩
    exact ⟨fun he => absurd he (by decide), fun hgt => absurd hgt h⟩

/-- C8: any exception raised inside the accumulation body (modelled: the
pandas `IndexError` from an index below `-len`) is caught by the
accumulator's catch-all, which returns 0 and leaves the persisted labeled
dataset untouched; `accumulate_newly_labeled_samples` and `runMain` are
total, so an accumulation failure never aborts the invocation. -/
theorem accumulation_error_caught (s : AccumState) (it : Nat) (msg : String)
    (h : candidatesOfEntries s.unlabeled (allVotingEntries s.votingFiles it)
          = .error msg) :
    accumulate_newly_labeled_samples s it = (0, s.labeled) := by
  unfold accumulate_newly_labeled_samples
  rw [h]

/-- C8 witness input: a voting entry whose index `-7` is below `-len`,
making the collection loop raise. -/
def c8State : AccumState :=
  { unlabeled := [[1], [2]], labeled := [⟨[1], "a"⟩],
    votingFiles := [some [⟨some (-7), some "z"⟩]] }

theorem accumulation_error_caught_witness :
    accumulate_newly_labeled_samples c8State 2 = (0, c8State.labeled) :=
  accumulation_error_caught c8State 2 "IndexError" rfl

/-- C9: a final-training invocation succeeds, writes the performance file
(with `final_training: true`) and the model file, and writes no
`query_samples_round_N.json`. -/
theorem final_training_outputs (selector : List Row → Nat → List Nat)
    (args : Args) (s : EngineState)
    (hft : args.finalTraining = true) :
    ∃ o, runMain selector args s = .ok o
      ∧ o.queryFile = none
      ∧ o.performanceFile = some { final_training := true }
      ∧ o.modelWritten = true := by
  unfold runMain
  rw [hft]
  refine ⟨{ newlyAdded := (accStep args s).1,
            labeledAfter := (accStep args s).2,
            queryFile := none, performanceFile := some ⟨true⟩,
            modelWritten := true }, ?_, rfl, rfl, rfl⟩
  simp

def c9State : EngineState :=
  { unlabeledRows := [[1], [2]], labeled := [⟨[1], "a"⟩],
    votingFiles := [], queryFiles := [] }

def c9Selector : List Row → Nat → List Nat := fun _ _ => [0]

theorem final_training_outputs_witness :
    ∃ o, runMain c9Selector ⟨3, some "p", true, 1⟩ c9State = .ok o
      ∧ o.queryFile = none
      ∧ o.performanceFile = some { final_training := true }
      ∧ o.modelWritten = true :=
  final_training_outputs c9Selector ⟨3, some "p", true, 1⟩ c9State rfl

/-- C10: a voting entry with a negative `original_index` `i` satisfying
`-len ≤ i < 0` passes the accumulator's bounds check (only
`original_index < len` is tested) and is accumulated as a candidate built
from the unlabeled row at position `len + i`, counted from the end, rather
than being skipped as out of range. -/
theorem negative_index_accumulated (unlabeled : List Row) (i : Int)
    (l : String)
    (h1 : -(unlabeled.length : Int) ≤ i) (h2 : i < 0) :
    i < (unlabeled.length : Int)
    ∧ ∃ r, unlabeled.get? ((unlabeled.length : Int) + i).toNat = some r
        ∧ candidateOf unlabeled ⟨some i, some l⟩ = .ok (some ⟨r, l⟩) := by
  have hi : i < (unlabeled.length : Int) := by omega
  refine ⟨hi, ?_⟩
  obtain ⟨r, hr⟩ := get?_some_of_lt unlabeled
    ((unlabeled.length : Int) + i).toNat (by omega)
  refine ⟨r, hr, ?_⟩
  have hpos : ¬ 0 ≤ i := by omega
  have h0 : (0:Int) ≤ (unlabeled.length : Int) + i := by omega
  have hr' : unlabeled[((unlabeled.length : Int) + i).toNat]? = some r := by
    rw [← List.get?_eq_getElem?]; exact hr
  simp [candidateOf, pyIloc, hi, hpos, h0, hr, hr']

theorem negative_index_accumulated_witness :
    (-1 : Int) < (([[1],[2]] : List Row).length : Int)
    ∧ ∃ r, ([[1],[2]] : List Row).get?
          ((([[1],[2]] : List Row).length : Int) + (-1)).toNat = some r
        ∧ candidateOf [[1],[2]] ⟨some (-1), some "a"⟩ = .ok (some ⟨r, "a"⟩) :=
  negative_index_accumulated [[1],[2]] (-1) "a" (by decide) (by decide)

end DVRE
